import Mathlib

/-!
Verification development for the trading-utilities repository.

The repository consists of three scripts:
  * `trading_pipeline_mini.py` — file locator, CSV normalizer, trade store writer;
  * `trading_analysis.py` — trade loader, aggregation builder, dashboard;
  * `trading_removal.py` — cleanup sweeper.

Shallow embedding conventions:
  * monetary quantities (profit, margin, commission) are exact rationals `ℚ`;
  * dates are integers (ordinal day numbers), times of day are integers
    (seconds since midnight) — only their ordering matters to the code;
  * a pandas dataframe is a list of row records, processed in order;
  * the database session is the list of persisted `Trade` rows, and the
    possibility of an `IntegrityError` on insert is an explicit oracle
    `raises : Trade → List Trade → Bool`;
  * the filesystem (`glob.glob`, `os.listdir`) is passed in as a function /
    an `Except`-valued listing.
-/

/-- Banker's rounding (round half to even) of a rational to an integer,
the rounding mode used by `pandas`/`numpy` `.round`. -/
def roundHalfEven (x : ℚ) : ℤ :=
  let n := ⌊x⌋
  let f := x - n
  if f < 1/2 then n
  else if 1/2 < f then n + 1
  else if n % 2 = 0 then n else n + 1

/-- `.round(2)`: round a rational to two decimal places, half to even. -/
def round2 (x : ℚ) : ℚ := (roundHalfEven (x * 100) : ℚ) / 100

/-- The `win_loss` enum column (`Enum("Win", "Loss")`). -/
inductive WinLoss where
  | win
  | loss
deriving DecidableEq, Repr

/-- The `market_session` enum column
(`Enum("Pre-Market", "Market Hours", "Post-Market")`). -/
inductive MarketSession where
  | preMarket
  | marketHours
  | postMarket
deriving DecidableEq, Repr

/-- `df["win_loss"] = df["Profit USD"].apply(lambda x: "Win" if x > 0 else "Loss")`
(trading_pipeline_mini.py line 175). -/
def winLossOf (profit : ℚ) : WinLoss :=
  if profit > 0 then .win else .loss

/-- `df["Margin"] = (df["Contracts"] * 100.00).round(2)`
(trading_pipeline_mini.py line 181). -/
def marginOf (contracts : ℤ) : ℚ := round2 ((contracts : ℚ) * 100)

/-- `df["Commissions"] = (df["Contracts"] * 0.87).round(2)`
(trading_pipeline_mini.py line 182). -/
def commissionOf (contracts : ℤ) : ℚ := round2 ((contracts : ℚ) * (87/100))

/-- `get_market_session` (trading_pipeline_mini.py lines 218-238).
The source localizes the trade time, the 08:30 market open and the 15:00
market close on the *same* date in the *same* timezone (US/Central) and
compares the localized datetimes; since all three share the date and the
timezone, the comparison is decided by wall-clock time of day, which we
represent as minutes since midnight.  `hour` and `minute` arrive as the
integer `dt.hour` / `dt.minute` fields, so the `int()` conversions are
the identity. -/
def get_market_session (hour minute : ℕ) : MarketSession :=
  let t := 60 * hour + minute
  let market_open := 60 * 8 + 30
  let market_close := 60 * 15
  if market_open ≤ t ∧ t < market_close then .marketHours
  else if t < market_open then .preMarket
  else .postMarket

/-- A canonical trade row, as constructed by `write_to_postgresql` /
the `Trade` ORM model (trading_pipeline_mini.py lines 26-50, 302-321). -/
structure Trade where
  symbol : String
  type : String
  date : ℤ
  time : ℤ
  day : ℤ
  hour : ℕ
  minute : ℕ
  weekday : String
  weeknum : ℤ
  month : String
  year : ℤ
  contracts : ℤ
  margin : ℚ
  commission : ℚ
  profit_usd : ℚ
  win_loss : WinLoss
  strategy : String
  market_session : MarketSession
deriving DecidableEq, Repr

/-- The natural duplicate key used by the writer's existence check:
`filter_by(symbol, type, date, time, contracts, profit_usd)`
(trading_pipeline_mini.py lines 324-335). -/
def sameDupKey (t u : Trade) : Prop :=
  t.symbol = u.symbol ∧ t.type = u.type ∧ t.date = u.date ∧
  t.time = u.time ∧ t.contracts = u.contracts ∧ t.profit_usd = u.profit_usd

instance (t u : Trade) : Decidable (sameDupKey t u) := by
  unfold sameDupKey; infer_instance

/-- `session.query(Trade).filter_by(...).first()`: the first persisted row
matching the duplicate key of `t`, if any. -/
def existingTrade (store : List Trade) (t : Trade) : Option Trade :=
  store.find? (fun u => decide (sameDupKey t u))

/-- One iteration of the writer loop (trading_pipeline_mini.py lines
322-345): look up the duplicate key; insert-and-commit when absent,
skip when present; when the insert raises `IntegrityError` (modeled by
the `raises` oracle) the record's transaction is rolled back, leaving
the store unchanged. -/
def writeRow (raises : Trade → List Trade → Bool) (store : List Trade)
    (t : Trade) : List Trade :=
  match existingTrade store t with
  | some _ => store
  | none => if raises t store then store else store ++ [t]

/-- `write_to_postgresql(df, session)` (trading_pipeline_mini.py lines
299-345): fold the per-row writer over the batch in dataframe order. -/
def write_to_postgresql (raises : Trade → List Trade → Bool)
    (df : List Trade) (store : List Trade) : List Trade :=
  df.foldl (writeRow raises) store

/-- A parsed CSV export row as it stands inside `clean_and_transform_data`
after the `Date/Time` parse (trading_pipeline_mini.py lines 161-172):
the calendar fields derived by the `dt` accessors, together with the
surviving raw columns `Type`, `Contracts`, `Profit USD`.  `hasNaN`
records whether any field of the row is a missing value (the `dropna`
step at line 270 removes such rows). -/
structure CsvRow where
  type : String
  date : ℤ
  day : ℤ
  time : ℤ
  hour : ℕ
  minute : ℕ
  weekday : String
  weeknum : ℤ
  month : String
  year : ℤ
  contracts : ℤ
  profit_usd : ℚ
  hasNaN : Bool
deriving DecidableEq, Repr

/-- `df = df[(df["Type"] != "Exit Short") & (df["Type"] != "Exit Long")]`
(trading_pipeline_mini.py line 204). -/
def dropExitTrades (rows : List CsvRow) : List CsvRow :=
  rows.filter (fun r => r.type ≠ "Exit Short" ∧ r.type ≠ "Exit Long")

/-- `rows_removed = original_length - new_length`
(trading_pipeline_mini.py lines 200-210): the count printed by the
normalizer after the exit-trade filter. -/
def rowsRemoved (rows : List CsvRow) : ℕ :=
  rows.length - (dropExitTrades rows).length

/-- The per-row column derivations of `clean_and_transform_data`
(trading_pipeline_mini.py lines 174-185, 241-243, 267): win/loss from
the sign of profit, the constant strategy and symbol, margin and
commission from the contract count, the market session from the row's
hour and minute, and the rename to the storage schema's column names. -/
def normalizeRow (r : CsvRow) : Trade where
  symbol := "CL"
  type := r.type
  date := r.date
  time := r.time
  day := r.day
  hour := r.hour
  minute := r.minute
  weekday := r.weekday
  weeknum := r.weeknum
  month := r.month
  year := r.year
  contracts := r.contracts
  margin := marginOf r.contracts
  commission := commissionOf r.contracts
  profit_usd := r.profit_usd
  win_loss := winLossOf r.profit_usd
  strategy := "1M Neocloud Micro"
  market_session := get_market_session r.hour r.minute

/-- `clean_and_transform_data` (trading_pipeline_mini.py lines 144-296)
restricted to its row-level effect: the per-row derivations (which never
add or remove rows), the exit-trade filter, and the `dropna` step.  The
column drops/renames/reordering are captured by the `Trade` shape of the
output. -/
def clean_and_transform_data (rows : List CsvRow) : List Trade :=
  ((dropExitTrades rows).filter (fun r => !r.hasNaN)).map normalizeRow

/-- `INITIAL_CAPITAL = 20000` (trading_analysis.py line 20). -/
def INITIAL_CAPITAL : ℚ := 20000

/-- The `ORDER BY date DESC, time DESC` ordering of the loader's SQL
query (trading_analysis.py line 28). -/
def loadOrderRel (a b : Trade) : Prop :=
  b.date < a.date ∨ (a.date = b.date ∧ b.time ≤ a.time)

instance (a b : Trade) : Decidable (loadOrderRel a b) := by
  unfold loadOrderRel; infer_instance

/-- `SELECT * FROM trades ORDER BY date DESC, time DESC`: the persisted
rows sorted by date descending, then time descending. -/
def loadOrdered (stored : List Trade) : List Trade :=
  List.insertionSort loadOrderRel stored

/-- The profit column of the loader's output, in load order. -/
def loadProfits (stored : List Trade) : List ℚ :=
  (loadOrdered stored).map (·.profit_usd)

/-- `cumsum` helper: running sums starting from `acc`. -/
def cumsumFrom (acc : ℚ) : List ℚ → List ℚ
  | [] => []
  | x :: xs => (acc + x) :: cumsumFrom (acc + x) xs

/-- `df["cumulative_profit"] = df["profit_usd"].cumsum()`
(trading_analysis.py line 35). -/
def cumulativeProfit (stored : List Trade) : List ℚ :=
  cumsumFrom 0 (loadProfits stored)

/-- `df["equity"] = INITIAL_CAPITAL + df["cumulative_profit"]`
(trading_analysis.py line 36). -/
def equitySeries (stored : List Trade) : List ℚ :=
  (cumulativeProfit stored).map (INITIAL_CAPITAL + ·)

/-- Day-of-week names, as produced by `dt.day_name()` for the loader's
`day` column (trading_analysis.py line 39). -/
inductive Weekday where
  | monday
  | tuesday
  | wednesday
  | thursday
  | friday
  | saturday
  | sunday
deriving DecidableEq, Repr

/-- Position of a weekday in the fixed `day_order` list
`["Monday", ..., "Sunday"]` (trading_analysis.py lines 55-63, 91-99). -/
def Weekday.idx : Weekday → ℕ
  | .monday => 0
  | .tuesday => 1
  | .wednesday => 2
  | .thursday => 3
  | .friday => 4
  | .saturday => 5
  | .sunday => 6

/-- A loaded trade row as seen by `create_day_hour_performance_table`:
the categorical `day`, the derived `hour`, and `profit_usd`
(trading_analysis.py lines 38-52). -/
structure LoadedRow where
  day : Weekday
  hour : ℕ
  profit_usd : ℚ
deriving DecidableEq, Repr

/-- The grouping key `(day, hour)` (the third key `day_hour` is a
string determined by the first two, so it does not refine the
partition). -/
def keyOf (r : LoadedRow) : Weekday × ℕ := (r.day, r.hour)

/-- The `sort_values(["day", "hour"])` order on keys, with `day` ordered
by the fixed Monday→Sunday categorical order. -/
def keyLe (a b : Weekday × ℕ) : Prop :=
  a.1.idx < b.1.idx ∨ (a.1.idx = b.1.idx ∧ a.2 ≤ b.2)

instance (a b : Weekday × ℕ) : Decidable (keyLe a b) := by
  unfold keyLe; infer_instance

instance : IsTotal (Weekday × ℕ) keyLe where
  total a b := by unfold keyLe; omega

instance : IsTrans (Weekday × ℕ) keyLe where
  trans a b c hab hbc := by
    unfold keyLe at *; omega

/-- The rows of one group: `df.groupby(["day", "hour", ...])` collects
the rows sharing a key. -/
def groupRows (rows : List LoadedRow) (k : Weekday × ℕ) : List LoadedRow :=
  rows.filter (fun r => keyOf r = k)

/-- One output row of the performance table
(trading_analysis.py lines 81-87). -/
structure StatsRow where
  day : Weekday
  hour : ℕ
  avg_profit : ℚ
  total_profit : ℚ
  trade_count : ℕ
  win_rate : ℚ
deriving DecidableEq, Repr

/-- The statistics of one `(day, hour)` group, after `stats.round(2)`:
`mean`, `sum`, `count` of `profit_usd`, and `win_rate`, the fraction of
rows with `profit_usd > 0` (trading_analysis.py lines 81-88). -/
def groupStats (rows : List LoadedRow) (k : Weekday × ℕ) : StatsRow :=
  let b := groupRows rows k
  let profits := b.map (·.profit_usd)
  { day := k.1
    hour := k.2
    avg_profit := round2 (profits.sum / b.length)
    total_profit := round2 profits.sum
    trade_count := b.length
    win_rate := round2 (((b.filter (fun r => r.profit_usd > 0)).length : ℚ) / b.length) }

/-- `create_day_hour_performance_table` (trading_analysis.py lines
73-103): group by `(day, hour)`, aggregate mean / sum / count / win
rate, round to 2 decimals, and sort by `(day, hour)` under the fixed
Monday→Sunday day order.  (`groupby` with a sorted categorical key and
the final `sort_values` both produce this key order; the model sorts
the distinct keys once.) -/
def create_day_hour_performance_table (rows : List LoadedRow) : List StatsRow :=
  let keys := (rows.map keyOf).dedup
  (List.insertionSort keyLe keys).map (groupStats rows)

/-- `filename.startswith(".")`: the filename's first character is a
dot. -/
def startsWithDot (filename : String) : Bool :=
  match filename.data with
  | [] => false
  | c :: _ => c = '.'

/-- `is_visible_file` (trading_removal.py lines 10-11). -/
def is_visible_file (filename : String) : Bool :=
  !startsWithDot filename && filename ≠ ".DS_Store"

/-- The exceptions `process_folder` catches around `os.listdir`:
`FileNotFoundError` and `OSError` (trading_removal.py lines 30-33). -/
inductive FsError where
  | notFound
  | osError (msg : String)
deriving DecidableEq, Repr

/-- What one `process_folder` call does, as observable behavior: either
one file is sent to the trash, or a condition is reported and nothing
is deleted. -/
inductive SweepAction where
  | reportedNoVisible (folder : String)
  | reportedMultiple (folder : String) (files : List String)
  | trashed (path : String)
  | reportedMissing (folder : String)
  | reportedAccessError (msg : String)
deriving DecidableEq, Repr

/-- `process_folder` (trading_removal.py lines 14-33).  The directory
listing is passed in as an `Except`: `os.listdir` either returns the
entry names or raises one of the two caught exceptions.  Exactly one
visible file → `send2trash(os.path.join(folder_path, f))`; zero or
several → report, no destructive action; a raised exception → report,
not re-raised. -/
def process_folder (folder_path : String)
    (listing : Except FsError (List String)) : SweepAction :=
  match listing with
  | .error .notFound => .reportedMissing folder_path
  | .error (.osError m) => .reportedAccessError m
  | .ok all_files =>
    let visible_files := all_files.filter is_visible_file
    match visible_files with
    | [] => .reportedNoVisible folder_path
    | [f] => .trashed (folder_path ++ "/" ++ f)
    | _ => .reportedMultiple folder_path visible_files

/-- The result of `find_file_in_date_range`: the chosen path, or the
raised `FileNotFoundError`. -/
inductive FindResult where
  | fileNotFoundError
  | found (path : String)
deriving DecidableEq, Repr

/-- The dates visited by the scan loop of `find_file_in_date_range`
(trading_pipeline_mini.py lines 111-117): `current_date` starts at
`end_date` and decreases by one day while `current_date >= start_date`,
so the loop visits `end_date, end_date - 1, ..., start_date` and visits
nothing when `end_date < start_date`. -/
def scanDates (start_date end_date : ℤ) : List ℤ :=
  (List.range (end_date + 1 - start_date).toNat).map (fun k => end_date - k)

/-- `max(all_files, key=os.path.getctime)` on a nonempty list: Python's
`max` keeps the first of equally-keyed maxima. -/
def maxByCtime (getctime : String → ℤ) (x : String) (xs : List String) : String :=
  xs.foldl (fun best f => if getctime best < getctime f then f else best) x

/-- `find_file_in_date_range` (trading_pipeline_mini.py lines 100-124)
with both dates supplied (the `None` defaults are filled by the caller
in `main`).  `globFiles d` stands for `glob.glob(pattern)` for the
pattern embedding date `d` in the given directory; `getctime` stands
for `os.path.getctime`. -/
def find_file_in_date_range (globFiles : ℤ → List String)
    (getctime : String → ℤ) (start_date end_date : ℤ) : FindResult :=
  let all_files := (scanDates start_date end_date).flatMap globFiles
  match all_files with
  | [] => .fileNotFoundError
  | x :: xs => .found (maxByCtime getctime x xs)

lemma roundHalfEven_intCast (m : ℤ) : roundHalfEven (m : ℚ) = m := by
  unfold roundHalfEven
  simp only [Int.floor_intCast, sub_self]
  norm_num

lemma round2_of_mul_eq_intCast (x : ℚ) (m : ℤ) (h : x * 100 = (m : ℚ)) :
    round2 x = (m : ℚ) / 100 := by
  unfold round2
  rw [h, roundHalfEven_intCast]

/-- C6: for every exported row, the derived `win_loss` is `Win` iff the
profit is strictly positive, `Loss` iff the profit is nonpositive, and a
profit of exactly 0 yields `Loss`. -/
theorem win_loss_iff_profit_positive (p : ℚ) :
    (winLossOf p = .win ↔ 0 < p) ∧ (winLossOf p = .loss ↔ p ≤ 0) ∧
    winLossOf 0 = .loss := by
  refine ⟨?_, ?_, ?_⟩
  · by_cases h : 0 < p <;> simp [winLossOf, h]
  · by_cases h : 0 < p
    · simp only [winLossOf, if_pos h]
      constructor
      · intro hc
        exact absurd hc (by simp)
      · intro hle
        exact absurd h (not_lt.mpr hle)
    · simp only [winLossOf, if_neg h]
      simp [le_of_not_lt h]
  · simp [winLossOf]

/-- Witness for C6 at profits 1 and 0. -/
theorem win_loss_iff_profit_positive_witness :
    winLossOf 1 = .win ∧ winLossOf 0 = .loss :=
  ⟨(win_loss_iff_profit_positive 1).1.mpr one_pos,
   (win_loss_iff_profit_positive 0).2.2⟩

/-- C7: for every row, the derived margin equals contracts × 100.00 and
the derived commission equals contracts × 0.87 (= 87/100), the 2-decimal
rounding performed by the code being exact on these values. -/
theorem margin_commission_linear (c : ℤ) :
    marginOf c = (c : ℚ) * 100 ∧ commissionOf c = (c : ℚ) * (87 / 100) := by
  constructor
  · unfold marginOf
    rw [round2_of_mul_eq_intCast _ (c * 10000) (by push_cast; ring)]
    push_cast
    ring
  · unfold commissionOf
    rw [round2_of_mul_eq_intCast _ (c * 87) (by push_cast; ring)]
    push_cast
    ring

/-- C2: the market-session classifier returns Pre-Market strictly before
08:30, Market Hours on [08:30, 15:00), Post-Market at or after 15:00,
for every valid hour/minute combination (times as minutes since
midnight: 08:30 = 510, 15:00 = 900). -/
theorem market_session_boundaries (h m : ℕ) (hh : h < 24) (hm : m < 60) :
    (60 * h + m < 510 → get_market_session h m = .preMarket) ∧
    (510 ≤ 60 * h + m ∧ 60 * h + m < 900 →
      get_market_session h m = .marketHours) ∧
    (900 ≤ 60 * h + m → get_market_session h m = .postMarket) := by
  refine ⟨fun ht => ?_, fun ht => ?_, fun ht => ?_⟩ <;>
    simp only [get_market_session] <;>
    split_ifs <;> first | rfl | omega

/-- Witness for C2 at 08:29, 08:30 and 15:00. -/
theorem market_session_boundaries_witness :
    get_market_session 8 29 = .preMarket ∧
    get_market_session 8 30 = .marketHours ∧
    get_market_session 15 0 = .postMarket :=
  ⟨(market_session_boundaries 8 29 (by norm_num) (by norm_num)).1 (by norm_num),
   (market_session_boundaries 8 30 (by norm_num) (by norm_num)).2.1
     (by norm_num),
   (market_session_boundaries 15 0 (by norm_num) (by norm_num)).2.2
     (by norm_num)⟩

/-- C8: exit-type rows (`Exit Short`, `Exit Long`) never appear in the
normalizer's output, and the reported removed count equals the row count
before the exit filter minus the row count after that step alone (stated
additively since the counts are naturals). -/
theorem exit_rows_never_in_output (rows : List CsvRow) :
    (∀ t ∈ clean_and_transform_data rows,
      t.type ≠ "Exit Short" ∧ t.type ≠ "Exit Long") ∧
    (dropExitTrades rows).length + rowsRemoved rows = rows.length := by
  constructor
  · intro t ht
    simp only [clean_and_transform_data, List.mem_map, List.mem_filter] at ht
    obtain ⟨r, ⟨hr, _⟩, rfl⟩ := ht
    simp only [dropExitTrades, List.mem_filter] at hr
    obtain ⟨-, hcond⟩ := hr
    simpa [normalizeRow] using of_decide_eq_true hcond
  · have hle := List.length_filter_le
      (fun r => decide (r.type ≠ "Exit Short" ∧ r.type ≠ "Exit Long")) rows
    simp only [rowsRemoved, dropExitTrades] at *
    omega

/-- A concrete normalized CSV row for witnesses. -/
def mkCsv (ty : String) (profit : ℚ) : CsvRow where
  type := ty
  date := 0
  day := 5
  time := 34200
  hour := 9
  minute := 30
  weekday := "Friday"
  weeknum := 1
  month := "January"
  year := 2024
  contracts := 2
  profit_usd := profit
  hasNaN := false

/-- A concrete batch containing an exit-type row. -/
def demoCsvRows : List CsvRow :=
  [mkCsv "Entry Long" 100, mkCsv "Exit Long" (-10), mkCsv "Entry Short" 0]

/-- Witness for C8 on a batch with one exit row among three. -/
theorem exit_rows_never_in_output_witness :
    ((normalizeRow (mkCsv "Entry Long" 100)).type ≠ "Exit Short" ∧
      (normalizeRow (mkCsv "Entry Long" 100)).type ≠ "Exit Long") ∧
    (dropExitTrades demoCsvRows).length + rowsRemoved demoCsvRows =
      demoCsvRows.length :=
  ⟨(exit_rows_never_in_output demoCsvRows).1 _
     (List.mem_map_of_mem normalizeRow
       (by simp [List.mem_filter, dropExitTrades, demoCsvRows, mkCsv])),
   (exit_rows_never_in_output demoCsvRows).2⟩

/-- C9: the cleanup sweeper trashes the single visible file when exactly
one is present, only reports when zero or two-or-more visible files are
present, and turns a missing folder or OS access error into a report
rather than an exception. -/
theorem sweeper_cases (folder_path : String) (files : List String)
    (m : String) :
    ((files.filter is_visible_file).length = 0 →
      process_folder folder_path (.ok files) =
        .reportedNoVisible folder_path) ∧
    (∀ f, files.filter is_visible_file = [f] →
      process_folder folder_path (.ok files) =
        .trashed (folder_path ++ "/" ++ f)) ∧
    (2 ≤ (files.filter is_visible_file).length →
      process_folder folder_path (.ok files) =
        .reportedMultiple folder_path (files.filter is_visible_file)) ∧
    process_folder folder_path (.error .notFound) =
      .reportedMissing folder_path ∧
    process_folder folder_path (.error (.osError m)) =
      .reportedAccessError m := by
  refine ⟨?_, ?_, ?_, rfl, rfl⟩
  · intro h0
    rw [List.length_eq_zero] at h0
    simp [process_folder, h0]
  · intro f hf
    simp [process_folder, hf]
  · intro h2
    cases hfl : files.filter is_visible_file with
    | nil =>
      rw [hfl] at h2
      simp at h2
    | cons a tail =>
      cases tail with
      | nil =>
        rw [hfl] at h2
        simp at h2
      | cons b rest =>
        simp only [process_folder, hfl]

/-- Witness for C9: single visible file trashed, two visible files
reported, hidden-only folder reported, missing folder reported. -/
theorem sweeper_cases_witness :
    process_folder "/data/Mini" (.ok [".DS_Store", "a.csv"]) =
      .trashed "/data/Mini/a.csv" ∧
    process_folder "/data/Mini" (.ok ["a.csv", "b.csv"]) =
      .reportedMultiple "/data/Mini" ["a.csv", "b.csv"] ∧
    process_folder "/data/Mini" (.ok [".hidden"]) =
      .reportedNoVisible "/data/Mini" ∧
    process_folder "/data/Mini" (.error .notFound) =
      .reportedMissing "/data/Mini" :=
  ⟨(sweeper_cases "/data/Mini" [".DS_Store", "a.csv"] "").2.1 "a.csv"
     (by decide),
   by
     have h := (sweeper_cases "/data/Mini" ["a.csv", "b.csv"] "").2.2.1
       (by decide)
     simpa using h,
   (sweeper_cases "/data/Mini" [".hidden"] "").1 (by decide),
   (sweeper_cases "/data/Mini" [] "").2.2.2.1⟩

/-- C10: when the date-range search is called with a start date strictly
after its end date, the scan loop visits no dates, so the search reports
file-not-found regardless of which matching files exist. -/
theorem reversed_range_finds_nothing (globFiles : ℤ → List String)
    (getctime : String → ℤ) (start_date end_date : ℤ)
    (h : end_date < start_date) :
    find_file_in_date_range globFiles getctime start_date end_date =
      .fileNotFoundError := by
  have hz : (end_date + 1 - start_date).toNat = 0 := by omega
  simp [find_file_in_date_range, scanDates, hz]

/-- Witness for C10: start 5, end 3, with a glob that matches a file on
every date. -/
theorem reversed_range_finds_nothing_witness :
    find_file_in_date_range (fun _ => ["trades.csv"]) (fun _ => 0) 5 3 =
      .fileNotFoundError :=
  reversed_range_finds_nothing (fun _ => ["trades.csv"]) (fun _ => 0) 5 3
    (by norm_num)

lemma existingTrade_isSome_iff (store : List Trade) (t : Trade) :
    (existingTrade store t).isSome ↔ ∃ u ∈ store, sameDupKey t u := by
  unfold existingTrade
  rw [List.find?_isSome]
  simp

lemma writeRow_of_dup (raises : Trade → List Trade → Bool)
    (store : List Trade) (t : Trade) (h : ∃ u ∈ store, sameDupKey t u) :
    writeRow raises store t = store := by
  obtain ⟨u, hu⟩ :=
    Option.isSome_iff_exists.mp ((existingTrade_isSome_iff store t).mpr h)
  simp [writeRow, hu]

lemma write_cons_eq (raises : Trade → List Trade → Bool) (r : Trade)
    (rest store : List Trade) :
    write_to_postgresql raises (r :: rest) store =
      write_to_postgresql raises rest (writeRow raises store r) := by
  simp [write_to_postgresql]

lemma write_append_batch (raises : Trade → List Trade → Bool)
    (df1 df2 store : List Trade) :
    write_to_postgresql raises (df1 ++ df2) store =
      write_to_postgresql raises df2 (write_to_postgresql raises df1 store) := by
  simp [write_to_postgresql, List.foldl_append]

lemma writeRow_append (raises : Trade → List Trade → Bool)
    (store : List Trade) (t : Trade) :
    ∃ suf, writeRow raises store t = store ++ suf := by
  cases h : existingTrade store t with
  | some u => exact ⟨[], by simp [writeRow, h]⟩
  | none =>
    by_cases hr : raises t store
    · exact ⟨[], by simp [writeRow, h, hr]⟩
    · exact ⟨[t], by simp [writeRow, h, hr]⟩

lemma write_append (raises : Trade → List Trade → Bool) (df : List Trade) :
    ∀ store, ∃ suf, write_to_postgresql raises df store = store ++ suf := by
  induction df with
  | nil => exact fun store => ⟨[], by simp [write_to_postgresql]⟩
  | cons r rest ih =>
    intro store
    obtain ⟨a, ha⟩ := writeRow_append raises store r
    obtain ⟨b, hb⟩ := ih (writeRow raises store r)
    refine ⟨a ++ b, ?_⟩
    rw [write_cons_eq, hb, ha, List.append_assoc]

lemma mem_write_of_mem (raises : Trade → List Trade → Bool)
    (df store : List Trade) (u : Trade) (h : u ∈ store) :
    u ∈ write_to_postgresql raises df store := by
  obtain ⟨suf, hs⟩ := write_append raises df store
  rw [hs]
  exact List.mem_append_left _ h

lemma dup_after_writeRow (raises : Trade → List Trade → Bool)
    (store : List Trade) (t : Trade) (hr : raises t store = false) :
    ∃ u ∈ writeRow raises store t, sameDupKey t u := by
  cases h : existingTrade store t with
  | some u =>
    have h' := h
    unfold existingTrade at h'
    have hp := List.find?_some h'
    refine ⟨u, ?_, of_decide_eq_true hp⟩
    simp [writeRow, h]
    exact List.mem_of_find?_eq_some h'
  | none =>
    refine ⟨t, ?_, rfl, rfl, rfl, rfl, rfl, rfl⟩
    simp [writeRow, h, hr]

lemma dup_after_write (raises : Trade → List Trade → Bool)
    (hr : ∀ t store, raises t store = false) (df : List Trade) :
    ∀ store t, t ∈ df →
      ∃ u ∈ write_to_postgresql raises df store, sameDupKey t u := by
  induction df with
  | nil =>
    intro store t ht
    simp at ht
  | cons r rest ih =>
    intro store t ht
    rcases List.mem_cons.mp ht with rfl | hmem
    · obtain ⟨u, hu, hk⟩ := dup_after_writeRow raises store t (hr t store)
      exact ⟨u, by rw [write_cons_eq]; exact mem_write_of_mem raises rest _ u hu, hk⟩
    · rw [write_cons_eq]
      exact ih (writeRow raises store r) t hmem

lemma write_skips_when_all_dup (raises : Trade → List Trade → Bool)
    (df : List Trade) :
    ∀ store, (∀ t ∈ df, ∃ u ∈ store, sameDupKey t u) →
      write_to_postgresql raises df store = store := by
  induction df with
  | nil =>
    intro store _
    simp [write_to_postgresql]
  | cons r rest ih =>
    intro store h
    rw [write_cons_eq, writeRow_of_dup raises store r (h r (List.mem_cons_self r rest))]
    exact ih store (fun t ht => h t (List.mem_cons_of_mem r ht))

/-- C1: a batch whose rows all match an existing stored record under the
natural duplicate key (symbol, type, date, time, contracts, profit)
inserts zero new rows, and — when no insert raises an integrity
violation — writing the same batch twice leaves the store exactly as
writing it once. -/
theorem writer_idempotent (raises : Trade → List Trade → Bool)
    (store batch : List Trade) :
    ((∀ t ∈ batch, ∃ u ∈ store, sameDupKey t u) →
      write_to_postgresql raises batch store = store) ∧
    ((∀ t s, raises t s = false) →
      write_to_postgresql raises batch
          (write_to_postgresql raises batch store) =
        write_to_postgresql raises batch store) := by
  constructor
  · exact write_skips_when_all_dup raises batch store
  · intro hno
    exact write_skips_when_all_dup raises batch _
      (fun t ht => dup_after_write raises hno batch store t ht)

/-- A concrete normalized trade for witness batches. -/
def demoTrade : Trade := normalizeRow (mkCsv "Entry Long" 100)

/-- Witness for C1: a single-row batch against a store already holding
that row, and the same batch written twice into an empty store. -/
theorem writer_idempotent_witness :
    write_to_postgresql (fun _ _ => false) [demoTrade] [demoTrade] =
      [demoTrade] ∧
    write_to_postgresql (fun _ _ => false) [demoTrade]
        (write_to_postgresql (fun _ _ => false) [demoTrade] []) =
      write_to_postgresql (fun _ _ => false) [demoTrade] [] :=
  ⟨(writer_idempotent (fun _ _ => false) [demoTrade] [demoTrade]).1
     (fun t ht =>
       ⟨demoTrade, List.mem_singleton_self _, by
         rw [List.mem_singleton.mp ht]
         exact ⟨rfl, rfl, rfl, rfl, rfl, rfl⟩⟩),
   (writer_idempotent (fun _ _ => false) [] [demoTrade]).2 (fun _ _ => rfl)⟩

/-- C5: per-record transaction scope of the writer.  If inserting
record `t` (the N-th record) raises a storage integrity violation —
that is, `t` has no stored duplicate at that point and the `raises`
oracle fires — then only `t`'s transaction is rolled back: the store
after processing the records before `t` plus `t` equals the store after
processing just the records before `t` (records 1..N-1 already
committed are unaffected), and the whole batch equals processing the
remaining records from that same store (processing continues with
record N+1). -/
theorem writer_per_record_rollback (raises : Trade → List Trade → Bool)
    (store pre post : List Trade) (t : Trade)
    (hnodup : ¬∃ u ∈ write_to_postgresql raises pre store, sameDupKey t u)
    (hfail : raises t (write_to_postgresql raises pre store) = true) :
    write_to_postgresql raises (pre ++ [t]) store =
      write_to_postgresql raises pre store ∧
    write_to_postgresql raises (pre ++ t :: post) store =
      write_to_postgresql raises post
        (write_to_postgresql raises pre store) := by
  have hnone : existingTrade (write_to_postgresql raises pre store) t = none := by
    rw [← Option.not_isSome_iff_eq_none]
    intro hs
    exact hnodup ((existingTrade_isSome_iff _ t).mp hs)
  have hrow : writeRow raises (write_to_postgresql raises pre store) t =
      write_to_postgresql raises pre store := by
    simp [writeRow, hnone, hfail]
  constructor
  · rw [write_append_batch, write_cons_eq, hrow]
    simp [write_to_postgresql]
  · rw [write_append_batch, write_cons_eq, hrow]

/-- An integrity-failure oracle that fires whenever the store is
nonempty: the first insert commits, later inserts raise. -/
def demoRaises : Trade → List Trade → Bool := fun _ store => !store.isEmpty

/-- A second concrete trade with a different duplicate key. -/
def demoTrade2 : Trade := normalizeRow (mkCsv "Entry Short" (-50))

/-- A third concrete trade with a different duplicate key. -/
def demoTrade3 : Trade := normalizeRow (mkCsv "Entry Long" 200)

/-- Witness for C5: with one record already committed, a failing second
record is rolled back alone and the batch continues with the third. -/
theorem writer_per_record_rollback_witness :
    write_to_postgresql demoRaises ([demoTrade] ++ [demoTrade2]) [] =
      write_to_postgresql demoRaises [demoTrade] [] ∧
    write_to_postgresql demoRaises ([demoTrade] ++ demoTrade2 :: [demoTrade3]) [] =
      write_to_postgresql demoRaises [demoTrade3]
        (write_to_postgresql demoRaises [demoTrade] []) := by
  have hpre : write_to_postgresql demoRaises [demoTrade] [] = [demoTrade] := by
    simp [write_to_postgresql, writeRow, existingTrade, demoRaises]
  refine writer_per_record_rollback demoRaises [] [demoTrade] [demoTrade3]
    demoTrade2 ?_ ?_
  · rw [hpre]
    simp [sameDupKey, demoTrade, demoTrade2, normalizeRow, mkCsv]
  · rw [hpre]
    simp [demoRaises]

lemma cumsumFrom_length (l : List ℚ) : ∀ acc, (cumsumFrom acc l).length = l.length := by
  induction l with
  | nil => intro acc; rfl
  | cons x xs ih =>
    intro acc
    simp [cumsumFrom, ih]

lemma cumsumFrom_getElem (l : List ℚ) :
    ∀ (acc : ℚ) (i : ℕ) (h : i < (cumsumFrom acc l).length),
      (cumsumFrom acc l)[i] = acc + (l.take (i + 1)).sum := by
  induction l with
  | nil =>
    intro acc i h
    simp [cumsumFrom] at h
  | cons x xs ih =>
    intro acc i h
    cases i with
    | zero => simp [cumsumFrom]
    | succ n =>
      have h2 : n < (cumsumFrom (acc + x) xs).length := by
        simpa [cumsumFrom] using h
      have step : (cumsumFrom acc (x :: xs))[n + 1] = (cumsumFrom (acc + x) xs)[n] := by
        simp [cumsumFrom]
      rw [step, ih (acc + x) n h2, List.take_succ_cons, List.sum_cons]
      ring

/-- C3: equity at index `i` of the loader's output equals the starting
balance 20000 plus the sum of `profit_usd` over indices `0..i`, where
the index order is the loader's fixed ordering (date descending, then
time descending). -/
theorem equity_is_capital_plus_prefix_sum (stored : List Trade) (i : ℕ)
    (h : i < (equitySeries stored).length) :
    (equitySeries stored)[i] =
      INITIAL_CAPITAL + ((loadProfits stored).take (i + 1)).sum := by
  have hc : i < (cumulativeProfit stored).length := by
    simpa [equitySeries] using h
  simp only [equitySeries]
  rw [List.getElem_map]
  simp only [cumulativeProfit] at hc ⊢
  rw [cumsumFrom_getElem _ 0 i hc]
  ring

/-- A concrete stored trade at a given date with a given profit. -/
def mkStored (d : ℤ) (p : ℚ) : Trade :=
  { demoTrade with date := d, profit_usd := p }

/-- Three stored trades whose load order yields profits
`[100, -50, 200]`. -/
def demoStored : List Trade :=
  [mkStored 3 100, mkStored 2 (-50), mkStored 1 200]

/-- Witness for C3: profits `[100, -50, 200]` in loaded order give
equity 20250 at index 2 (and `[20100, 20050, 20250]` overall). -/
theorem equity_is_capital_plus_prefix_sum_witness :
    (equitySeries demoStored).getD 2 0 = 20250 := by
  have hp : loadProfits demoStored = [100, -50, 200] := by
    simp [loadProfits, loadOrdered, demoStored, List.insertionSort,
      List.orderedInsert, loadOrderRel, mkStored, demoTrade, normalizeRow, mkCsv]
  have hlen : 2 < (equitySeries demoStored).length := by
    simp [equitySeries, cumulativeProfit, hp, cumsumFrom]
  rw [List.getD_eq_getElem _ _ hlen,
    equity_is_capital_plus_prefix_sum demoStored 2 hlen, hp]
  norm_num [INITIAL_CAPITAL]

/-- C4: the aggregation builder groups rows by `(day, hour)` and, per
bucket, reports the trade count, the summed profit, the mean profit and
the win rate (fraction of rows with profit > 0), each rounded to 2
decimals, with the output sorted by `(day, hour)` under the fixed
Monday→Sunday day order. -/
theorem day_hour_table_stats_and_order (rows : List LoadedRow) :
    List.Sorted keyLe
      ((create_day_hour_performance_table rows).map (fun s => (s.day, s.hour))) ∧
    ∀ s ∈ create_day_hour_performance_table rows,
      0 < (groupRows rows (s.day, s.hour)).length ∧
      s.trade_count = (groupRows rows (s.day, s.hour)).length ∧
      s.total_profit =
        round2 (((groupRows rows (s.day, s.hour)).map (·.profit_usd)).sum) ∧
      s.avg_profit =
        round2 (((groupRows rows (s.day, s.hour)).map (·.profit_usd)).sum /
          (groupRows rows (s.day, s.hour)).length) ∧
      s.win_rate =
        round2 ((((groupRows rows (s.day, s.hour)).filter
              (fun r => r.profit_usd > 0)).length : ℚ) /
          (groupRows rows (s.day, s.hour)).length) := by
  constructor
  · have hmap : (create_day_hour_performance_table rows).map
        (fun s => (s.day, s.hour)) =
        List.insertionSort keyLe ((rows.map keyOf).dedup) := by
      simp only [create_day_hour_performance_table, List.map_map]
      have : ((fun s : StatsRow => (s.day, s.hour)) ∘ groupStats rows) =
          fun k : Weekday × ℕ => k := by
        funext k
        simp [groupStats]
      rw [this]
      exact List.map_id _
    rw [hmap]
    exact List.sorted_insertionSort keyLe _
  · intro s hs
    simp only [create_day_hour_performance_table, List.mem_map] at hs
    obtain ⟨k, hk, rfl⟩ := hs
    have hk2 : k ∈ (rows.map keyOf).dedup :=
      (List.perm_insertionSort keyLe ((rows.map keyOf).dedup)).mem_iff.mp hk
    have hk3 : ∃ r ∈ rows, keyOf r = k := by
      simpa [List.mem_dedup, List.mem_map] using hk2
    obtain ⟨r, hr, hkey⟩ := hk3
    have hpos : 0 < (groupRows rows k).length := by
      refine List.length_pos_of_mem (a := r) ?_
      simp [groupRows, List.mem_filter, hr, hkey]
    have hketa : ((groupStats rows k).day, (groupStats rows k).hour) = k := by
      simp [groupStats]
    rw [hketa]
    exact ⟨hpos, rfl, rfl, rfl, rfl⟩

/-- Four loaded rows in a single Monday-09:00 bucket with profits
`[10, -5, 20, -1]`. -/
def demoLoaded : List LoadedRow :=
  [⟨.monday, 9, 10⟩, ⟨.monday, 9, -5⟩, ⟨.monday, 9, 20⟩, ⟨.monday, 9, -1⟩]

/-- Witness for C4: the demo bucket's output is sorted, has 4 trades,
and its win rate is 0.50 (2 of 4 positive). -/
theorem day_hour_table_stats_and_order_witness :
    List.Sorted keyLe
      ((create_day_hour_performance_table demoLoaded).map
        (fun s => (s.day, s.hour))) ∧
    (groupStats demoLoaded (Weekday.monday, 9)).trade_count = 4 ∧
    (groupStats demoLoaded (Weekday.monday, 9)).win_rate = 1 / 2 := by
  have hmem : groupStats demoLoaded (Weekday.monday, 9) ∈
      create_day_hour_performance_table demoLoaded := by
    have htab : create_day_hour_performance_table demoLoaded =
        [groupStats demoLoaded (Weekday.monday, 9)] := by
      simp [create_day_hour_performance_table, demoLoaded, keyOf,
        List.insertionSort, List.orderedInsert]
    rw [htab]
    exact List.mem_singleton_self _
  have hstats := (day_hour_table_stats_and_order demoLoaded).2 _ hmem
  have hkeys : ((groupStats demoLoaded (Weekday.monday, 9)).day,
      (groupStats demoLoaded (Weekday.monday, 9)).hour) = (Weekday.monday, 9) := by
    simp [groupStats]
  rw [hkeys] at hstats
  refine ⟨(day_hour_table_stats_and_order demoLoaded).1, ?_, ?_⟩
  · rw [hstats.2.1]
    simp [groupRows, demoLoaded, keyOf]
  · rw [hstats.2.2.2.2]
    have hgrp : groupRows demoLoaded (Weekday.monday, 9) = demoLoaded := by
      simp [groupRows, demoLoaded, keyOf]
    rw [hgrp]
    have hwin : (demoLoaded.filter (fun r => r.profit_usd > 0)).length = 2 := by
      simp [demoLoaded, List.filter]
      norm_num
    rw [hwin]
    have hlen : (demoLoaded.length : ℚ) = 4 := by
      simp [demoLoaded]
    rw [hlen]
    rw [round2_of_mul_eq_intCast _ 50 (by norm_num)]
    norm_num

/-- Witness for C7 at 3 contracts: margin 300.00, commission 2.61. -/
theorem margin_commission_linear_witness :
    marginOf 3 = 300 ∧ commissionOf 3 = 261 / 100 := by
  constructor
  · rw [(margin_commission_linear 3).1]
    norm_num
  · rw [(margin_commission_linear 3).2]
    norm_num
